import Mathlib

/-!
# Verification of systemd-duration (Rust) against its specification

Shallow embedding of the systemd-duration crate: the nom-based grammar in
`src/parser.rs`, the fragment data model in `src/duration.rs`, and the three
conversion backends (`std::time::Duration`, `chrono::TimeDelta`,
`time::Duration`).

Modelling conventions:

* Rust `f64` values are modelled by the exact decimal fractions `Dec`
  (an integer numerator `num` with value `num / 10 ^ exp`).  Every float that
  the program manipulates is produced from a decimal literal or from the
  decimal conversion constants by `*`, `-`, `trunc`, `round`, `signum` and
  comparisons, so every such value is an exact decimal fraction; the model
  computes these operations exactly, without IEEE-754 intermediate rounding.
  For the arithmetic after parsing, the claims settled below were checked to
  be insensitive to this difference (in particular `365.2425 * 86400.0` and
  `30.436875 * 86400.0` round in f64 to exactly `31556952.0` and
  `2629746.0`, the same values the exact model produces, and the i64 range
  bounds `i64::MIN as f64 = -2^63` and `i64::MAX as f64 = 2^63` are used
  literally).  The one genuine gap is the rounding performed by
  `str::parse::<f64>` itself: the model gives a literal its exact decimal
  value, while Rust rounds it to the nearest double, so e.g. the written
  magnitude `2^63 + 1` reaches the program's nanosecond range check as
  exactly `2^63`.  Statements quantifying over literals therefore either
  compare the two parses of the *same* literal (insensitive to the rounding)
  or, where the property itself lives at this boundary (the nanosecond range
  check of claim C10), carry an explicit `repF64` hypothesis restricting to
  literals whose exact value is itself a binary64 number, for which the
  parsed and written values coincide.  IEEE special values cannot
  arise on the modelled paths: literals are never NaN and every path that
  could produce an infinity is guarded by (or subsumed by) a range check with
  the same outcome in the model.  A floating negative zero is modelled as
  `+0` (the sign of zero is not tracked).
* Rust integer casts `as i64` / `as u32` / `as u64` on floats saturate after
  truncation toward zero, as in Rust 1.45+.
* Fallible Rust code is modelled with `Except Fail`; a Rust panic (reachable
  through `std::time::Duration::from_secs_f64`, the `+=` operators and
  `chrono::TimeDelta::new(..).unwrap()`) is the distinguished outcome
  `Fail.panicked`, which is *not* a value of the library's `error::Error`.
* The nom `Err::Error` / `Err::Failure` distinction is collapsed into
  `Option.none`: both variants surface through the public `parse` facades as
  the wrapped parser error (`error::Error::ParserError`), and no alternative
  combinator runs after the only `Failure` site (the nanosecond range check),
  so the collapse does not change any observable parse result.
* The external duration types are modelled by their total value in integer
  nanoseconds together with the documented range bounds and checked
  operations of each crate (`std::time`, `chrono`, `time`).
-/

/-! ## Exact decimal fractions modelling `f64` values -/

/-- Powers of ten used as denominators. -/
def pow10 (e : Nat) : Int := (10 : Int) ^ e

/-- An exact decimal fraction: the value `num / 10 ^ exp`.  This models the
Rust `f64` values flowing through systemd-duration (see the header comment);
the representation is not normalised, and all operations are exact. -/
structure Dec where
  num : Int
  exp : Nat
deriving DecidableEq, Repr

namespace Dec

/-- Embed an integer. -/
def ofInt (n : Int) : Dec := ⟨n, 0⟩

/-- Exact product, modelling `f64` multiplication on the decimal values the
program computes with (exact in every case relevant to the claims). -/
def mul (a b : Dec) : Dec := ⟨a.num * b.num, a.exp + b.exp⟩

/-- Exact difference, modelling `f64` subtraction. -/
def sub (a b : Dec) : Dec := ⟨a.num * pow10 b.exp - b.num * pow10 a.exp, a.exp + b.exp⟩

/-- Value-level strict order (cross-multiplied). -/
def blt (a b : Dec) : Bool := a.num * pow10 b.exp < b.num * pow10 a.exp

/-- Value-level non-strict order. -/
def ble (a b : Dec) : Bool := a.num * pow10 b.exp ≤ b.num * pow10 a.exp

/-- Value-level equality. -/
def beqv (a b : Dec) : Bool := a.num * pow10 b.exp = b.num * pow10 a.exp

/-- `f64::trunc` as an integer: rounds toward zero. -/
def trunc (a : Dec) : Int := a.num.tdiv (pow10 a.exp)

/-- Floor as an integer (used only in derived statements, not in the code). -/
def floorv (a : Dec) : Int := a.num.fdiv (pow10 a.exp)

/-- `f64::round`: round to the nearest integer, ties away from zero. -/
def roundAway (a : Dec) : Int :=
  if 0 ≤ a.num then (2 * a.num + pow10 a.exp).fdiv (2 * pow10 a.exp)
  else -((2 * (-a.num) + pow10 a.exp).fdiv (2 * pow10 a.exp))

/-- Round to the nearest integer, ties to even: the rounding used by
`std::time::Duration::from_secs_f64` and `time::Duration::checked_seconds_f64`
at nanosecond granularity. -/
def rte (a : Dec) : Int :=
  let d := pow10 a.exp
  let f := a.num.fdiv d
  let r := a.num - f * d
  if 2 * r < d then f else if d < 2 * r then f + 1 else if f % 2 = 0 then f else f + 1

/-- `f64::signum` restricted to the values the model can hold (never NaN;
negative zero is not represented, see the header comment). -/
def signum (a : Dec) : Int := a.num.sign

/-- Negation. -/
def neg (a : Dec) : Dec := ⟨-a.num, a.exp⟩

/-- The value of `a` is negative. -/
def isNeg (a : Dec) : Bool := a.num < 0

/-- Compare with an integer: `a < n`. -/
def bltInt (a : Dec) (n : Int) : Bool := a.num < n * pow10 a.exp

/-- Compare with an integer: `n < a`. -/
def bgtInt (a : Dec) (n : Int) : Bool := n * pow10 a.exp < a.num

end Dec

/-- Saturating cast of an integer into the `i64` range: the effect of a Rust
`as i64` cast after truncation. -/
def satI64 (x : Int) : Int := max (-(2 ^ 63)) (min (2 ^ 63 - 1) x)

/-- Saturating cast of an integer into the `u32` range: the effect of a Rust
`as u32` cast after truncation (negative values become 0). -/
def satU32 (x : Int) : Int := max 0 (min (2 ^ 32 - 1) x)

/-- Rust `f64 as i64`: truncate toward zero, then saturate. -/
def castI64 (a : Dec) : Int := satI64 a.trunc

/-- Rust `f64 as u32`: truncate toward zero, then saturate. -/
def castU32 (a : Dec) : Int := satU32 a.trunc

/-! ## Data model (`src/duration.rs`) -/

/-- `Duration` from `src/duration.rs`: a measurement of a given span of time.
All units except `Nanosecond` carry an `f64` magnitude (modelled by `Dec`);
`Nanosecond` carries an `i64`. -/
inductive Duration where
  | Year (count : Dec)
  | Month (count : Dec)
  | Week (count : Dec)
  | Day (count : Dec)
  | Hour (count : Dec)
  | Minute (count : Dec)
  | Second (count : Dec)
  | Millisecond (count : Dec)
  | Microsecond (count : Dec)
  | Nanosecond (count : Int)
deriving DecidableEq, Repr

/-- `Container` from `src/duration.rs`: the ordered list of fragments
produced by one parse. -/
structure Container where
  frags : List Duration
deriving DecidableEq, Repr

/-! The conversion-factor table `Convert` from `src/duration.rs`.  Each
constant mirrors the corresponding Rust `f64` constant expression; every one
of these products is exact in f64 as well (checked numerically), so the
decimal values coincide with the Rust values. -/

namespace Convert

def SECS_PER_MIN : Dec := Dec.ofInt 60

def SECS_PER_HOUR : Dec := (Dec.ofInt 60).mul SECS_PER_MIN

def SECS_PER_DAY : Dec := (Dec.ofInt 24).mul SECS_PER_HOUR

def SECS_PER_WEEK : Dec := (Dec.ofInt 7).mul SECS_PER_DAY

def SECS_PER_MONTH : Dec := (⟨30436875, 6⟩ : Dec).mul SECS_PER_DAY

def SECS_PER_YEAR : Dec := (⟨3652425, 4⟩ : Dec).mul SECS_PER_DAY

def NANOS_PER_SEC : Dec := Dec.ofInt 1000000000

/-- `NANOS_PER_SEC / 1_000.0`: the division by 1000 is represented exactly by
raising the decimal exponent (the f64 quotient `1e6` is exact). -/
def NANOS_PER_MILLI : Dec := ⟨1000000000, 3⟩

/-- `NANOS_PER_MILLI / 1_000.0` (the f64 quotient `1e3` is exact). -/
def NANOS_PER_MICRO : Dec := ⟨1000000000, 6⟩

end Convert

/-- Outcome classification for a `parse` call.  `overflow` and `parseErr` are
the two `error::Error` variants (`DurationOverflow`, `ParserError`);
`panicked` marks a Rust panic, which is not an `error::Error` value at all. -/
inductive Fail where
  | overflow
  | parseErr
  | panicked
deriving DecidableEq, Repr

/-- Result type of the modelled fallible Rust code. -/
abbrev RRes (α : Type) := Except Fail α

instance {ε α : Type} [DecidableEq ε] [DecidableEq α] : DecidableEq (Except ε α) := fun x y =>
  match x, y with
  | .ok a, .ok b =>
      if h : a = b then isTrue (by subst h; rfl)
      else isFalse (fun he => by cases he; exact h rfl)
  | .ok _, .error _ => isFalse (fun he => Except.noConfusion he)
  | .error _, .ok _ => isFalse (fun he => Except.noConfusion he)
  | .error e, .error f =>
      if h : e = f then isTrue (by subst h; rfl)
      else isFalse (fun he => by cases he; exact h rfl)

/-! ## Grammar model (`src/parser.rs`)

nom parsers over `&str` are modelled as functions
`List Char → Option (List Char × α)` returning the unconsumed rest and the
value.  `Err::Error` and `Err::Failure` are both `none` (see header). -/

/-- Parser type: input ↦ (rest, value), or failure. -/
abbrev P (α : Type) := List Char → Option (List Char × α)

/-- nom `multispace0` character class: space, tab, line feed, carriage
return. -/
def isWS (c : Char) : Bool := c = ' ' || c = '\t' || c = '\n' || c = '\r'

/-- `multispace0`: drop the maximal whitespace prefix (always succeeds). -/
def multispace0 (cs : List Char) : List Char := cs.dropWhile isWS

/-- ASCII digit test (nom `digit0` / `digit1` character class). -/
def isDigitC (c : Char) : Bool := c.isDigit

/-- Numeric value of a digit run. -/
def digitsToNat (ds : List Char) : Nat :=
  ds.foldl (fun a c => a * 10 + (c.toNat - 48)) 0

/-- `DurationUnit` from `src/parser.rs`. -/
inductive DurationUnit where
  | Year
  | Month
  | Week
  | Day
  | Hour
  | Minute
  | Second
  | Millisecond
  | Microsecond
  | Nanosecond
deriving DecidableEq, Repr

/-- The committed tail of `float` from `src/parser.rs`:
`recognize((opt(one_of("+-")), opt((digit0, char('.'))), digit1))` followed by
`str::parse::<f64>`.  The committed nom tuple is mirrored exactly: if the
optional `digit0 '.'` group matches, at least one digit must follow the dot or
the whole parser fails (no backtracking inside the tuple); otherwise `digit1`
consumes the maximal digit run.  The resulting decimal literal is modelled by
its exact value, dropping the nearest-double rounding of `str::parse::<f64>`
(see header): statements whose truth depends on that rounding are restricted
to exactly-representable literals via `repF64`. -/
def floatAfterSign (neg : Bool) : P Dec := fun cs1 =>
  let ip := cs1.takeWhile isDigitC
  let csA := cs1.dropWhile isDigitC
  match csA with
  | '.' :: csB =>
      let fp := csB.takeWhile isDigitC
      let csC := csB.dropWhile isDigitC
      if fp.isEmpty then none
      else
        let m : Int := (digitsToNat (ip ++ fp) : Int)
        some (csC, ⟨if neg then -m else m, fp.length⟩)
  | _ =>
      if ip.isEmpty then none
      else
        let m : Int := (digitsToNat ip : Int)
        some (csA, ⟨if neg then -m else m, 0⟩)

/-- `float`, the `opt(one_of("+-"))` step: dispatch on an optional sign, then
run the committed `(opt((digit0, char('.'))), digit1)` tail. -/
def float : P Dec := fun cs =>
  match cs with
  | c :: t =>
      if c = '-' then floatAfterSign true t
      else if c = '+' then floatAfterSign false t
      else floatAfterSign false cs
  | [] => floatAfterSign false cs

/-- The character alphabet of `timespan_word`:
`one_of("Macdehiklmnorstuwyµ")`. -/
def unitAlphabet : List Char :=
  ['M', 'a', 'c', 'd', 'e', 'h', 'i', 'k', 'l', 'm', 'n', 'o', 'r', 's', 't', 'u', 'w', 'y', 'µ']

/-- Membership in the unit alphabet. -/
def isUnitChar (c : Char) : Bool := unitAlphabet.contains c

/-- `timespan_word`: `recognize(many1(one_of("Macdehiklmnorstuwyµ")))`, the
maximal nonempty run of unit-alphabet characters. -/
def timespan_word : P (List Char) := fun cs =>
  let w := cs.takeWhile isUnitChar
  if w.isEmpty then none else some (cs.dropWhile isUnitChar, w)

/-- The recognized spellings of each unit, in the source's alternative order
(longest first within each unit).  Each alternative in the source is
`all_consuming(tag(t))`, i.e. an exact whole-word match. -/
def spellings : DurationUnit → List (List Char)
  | .Year => [("years").toList, ("year").toList, ("yrs").toList, ("yr").toList, ("y").toList]
  | .Month => [("months").toList, ("month").toList, ("mos").toList, ("mo").toList, ("M").toList]
  | .Week => [("weeks").toList, ("week").toList, ("wks").toList, ("wk").toList, ("w").toList]
  | .Day => [("days").toList, ("day").toList, ("d").toList]
  | .Hour => [("hours").toList, ("hour").toList, ("hrs").toList, ("hr").toList, ("h").toList]
  | .Minute => [("minutes").toList, ("minute").toList, ("mins").toList, ("min").toList, ("m").toList]
  | .Second => [("seconds").toList, ("second").toList, ("secs").toList, ("sec").toList, ("s").toList]
  | .Millisecond => [("milliseconds").toList, ("millisecond").toList, ("msecs").toList, ("msec").toList, ("ms").toList]
  | .Microsecond => [("microseconds").toList, ("microsecond").toList, ("µsecs").toList, ("µsec").toList, ("µs").toList, ("µ").toList, ("usecs").toList, ("usec").toList, ("us").toList]
  | .Nanosecond => [("nanoseconds").toList, ("nanosecond").toList, ("nsecs").toList, ("nsec").toList, ("ns").toList]

/-- One `timespan_period_xxx` parser applied to a captured word: succeeds iff
the word is exactly one of the unit's spellings. -/
def timespan_period_unit (u : DurationUnit) (w : List Char) : Option DurationUnit :=
  if (spellings u).contains w then some u else none

/-- The fixed unit order of the `alt` in `timespan_period`. -/
def unitOrder : List DurationUnit :=
  [.Year, .Month, .Week, .Day, .Hour, .Minute, .Second, .Millisecond, .Microsecond, .Nanosecond]

/-- The `all_consuming(alt((timespan_period_years, ..)))` body of
`timespan_period`, applied to the captured word. -/
def matchUnit (w : List Char) : Option DurationUnit :=
  unitOrder.foldr (fun u acc => (timespan_period_unit u w).orElse (fun _ => acc)) none

/-- `timespan_period`: capture the maximal unit-alphabet run, then require it
to be consumed in full by exactly one recognized spelling. -/
def timespan_period : P DurationUnit := fun cs =>
  match timespan_word cs with
  | none => none
  | some (rest, w) =>
      match matchUnit w with
      | none => none
      | some u => some (rest, u)

/-- `duration_fragment`: optional whitespace, a float, optional whitespace,
a unit word; the nanosecond arm range-checks the literal against
`i64::MIN as f64 = -2^63` and `i64::MAX as f64 = 2^63` (a nom `Failure` on
violation) and then casts it with `as i64`. -/
def duration_fragment : P Duration := fun cs =>
  match float (multispace0 cs) with
  | none => none
  | some (cs1, count) =>
      match timespan_period (multispace0 cs1) with
      | none => none
      | some (cs3, unit) =>
          match unit with
          | .Year => some (cs3, .Year count)
          | .Month => some (cs3, .Month count)
          | .Week => some (cs3, .Week count)
          | .Day => some (cs3, .Day count)
          | .Hour => some (cs3, .Hour count)
          | .Minute => some (cs3, .Minute count)
          | .Second => some (cs3, .Second count)
          | .Millisecond => some (cs3, .Millisecond count)
          | .Microsecond => some (cs3, .Microsecond count)
          | .Nanosecond =>
              if count.bltInt (-(2 ^ 63)) || count.bgtInt (2 ^ 63) then none
              else some (cs3, .Nanosecond (castI64 count))

/-- `raw_seconds`: the entire input, trimmed of surrounding whitespace, is one
bare float, interpreted as seconds. -/
def raw_seconds : P Duration := fun cs =>
  match float (multispace0 cs) with
  | none => none
  | some (cs1, v) => if (multispace0 cs1).isEmpty then some ([], .Second v) else none

/-- nom `many0`-style iteration with explicit fuel (the modelled parsers each
consume at least one character on success, so fuel = input length is always
enough; see `manyStar_fuel_irrelevant`). -/
def manyStar {α : Type} (p : P α) : Nat → List Char → (List Char × List α)
  | 0, cs => (cs, [])
  | fuel + 1, cs =>
      match p cs with
      | none => (cs, [])
      | some (r, v) =>
          let (r2, vs) := manyStar p fuel r
          (r2, v :: vs)

/-- `full_duration`: `all_consuming(many1(duration_fragment))`. -/
def full_duration : P (List Duration) := fun cs =>
  match duration_fragment cs with
  | none => none
  | some (r, v) =>
      let (r2, vs) := manyStar duration_fragment r.length r
      if r2.isEmpty then some ([], v :: vs) else none

/-- `duration`: `complete(cut(alt((raw_seconds → Container, full_duration →
Container))))`.  `complete`/`cut` only adjust the nom error flavour, which the
model collapses. -/
def duration (cs : List Char) : Option Container :=
  match raw_seconds cs with
  | some (_, v) => some ⟨[v]⟩
  | none =>
      match full_duration cs with
      | some (_, vs) => some ⟨vs⟩
      | none => none

/-! ## Conversion backends (`src/duration.rs`)

Each native duration type is modelled by its total value in integer
nanoseconds, plus the range bounds and checked operations documented by the
owning crate. -/

/-- `f64::EPSILON = 2^-52`, as an exact decimal (`5^52 / 10^52`). -/
def f64EPSILON : Dec := ⟨(5 : Int) ^ 52, 52⟩

/-- Largest `std::time::Duration` in nanoseconds: `u64::MAX` seconds plus
`999_999_999` nanoseconds. -/
def stdMaxNanos : Int := ((2 : Int) ^ 64 - 1) * 10 ^ 9 + 999999999

/-- `chrono::TimeDelta` magnitude bound: `i64::MAX` milliseconds, in
nanoseconds (`TimeDelta::MIN = -TimeDelta::MAX`). -/
def chronoMaxNanos : Int := ((2 : Int) ^ 63 - 1) * 10 ^ 6

/-- Largest `time::Duration` in nanoseconds (`i64::MAX` seconds and
`999_999_999` nanoseconds). -/
def timeMaxNanos : Int := ((2 : Int) ^ 63 - 1) * 10 ^ 9 + 999999999

/-- Smallest `time::Duration` in nanoseconds (`i64::MIN` seconds and
`-999_999_999` nanoseconds). -/
def timeMinNanos : Int := -((2 : Int) ^ 63) * 10 ^ 9 - 999999999

/-- `std::time::Duration::from_secs_f64`: rounds to the nearest nanosecond
(ties to even) and panics when the seconds value is negative, NaN, or beyond
the `u64` seconds range (NaN cannot arise in the model). -/
def from_secs_f64 (q : Dec) : RRes Int :=
  if q.isNeg then .error .panicked
  else
    let n := (q.mul (Dec.ofInt (10 ^ 9))).rte
    if n > stdMaxNanos then .error .panicked else .ok n

namespace stdtime

/-- The `duration_ge_second!` macro of the `stdtime` module: reject a
negative (or NaN) magnitude sign, then build via `from_secs_f64`. -/
def duration_ge_second (secs_per_interval count : Dec) : RRes Int :=
  let sign := count.signum
  if sign ≤ -1 then .error .overflow
  else from_secs_f64 (secs_per_interval.mul count)

/-- The `duration_lt_second!` macro of the `stdtime` module.  The
`!nanos.is_finite()` guard is always false in the exact model; a value that
would have been infinite in f64 instead fails the `i64` round-trip check
below, with the same `DurationOverflow` outcome. -/
def duration_lt_second (nanos_per_interval count : Dec) : RRes Int :=
  let nanos := nanos_per_interval.mul count
  let rounded := nanos.roundAway
  let int_nanos := satI64 rounded
  if f64EPSILON.blt ⟨(int_nanos - rounded).natAbs, 0⟩ then .error .overflow
  else if int_nanos < 0 then .error .overflow
  else .ok int_nanos

/-- One arm of the `match` in `TryFrom<Container> for std::time::Duration`. -/
def convPiece : Duration → RRes Int
  | .Year c => duration_ge_second Convert.SECS_PER_YEAR c
  | .Month c => duration_ge_second Convert.SECS_PER_MONTH c
  | .Week c => duration_ge_second Convert.SECS_PER_WEEK c
  | .Day c => duration_ge_second Convert.SECS_PER_DAY c
  | .Hour c => duration_ge_second Convert.SECS_PER_HOUR c
  | .Minute c => duration_ge_second Convert.SECS_PER_MIN c
  | .Second c => duration_ge_second (Dec.ofInt 1) c
  | .Millisecond c => duration_lt_second Convert.NANOS_PER_MILLI c
  | .Microsecond c => duration_lt_second Convert.NANOS_PER_MICRO c
  | .Nanosecond c => if c < 0 then .error .overflow else .ok c

/-- `duration_sum += piece`: `std::time::Duration` addition panics on
overflow past `Duration::MAX`. -/
def addDur (a b : Int) : RRes Int :=
  if a + b > stdMaxNanos then .error .panicked else .ok (a + b)

/-- The summation loop of `TryFrom<Container> for std::time::Duration`. -/
def try_from_aux : Int → List Duration → RRes Int
  | acc, [] => .ok acc
  | acc, d :: rest =>
      match convPiece d with
      | .error e => .error e
      | .ok p =>
          match addDur acc p with
          | .error e => .error e
          | .ok acc2 => try_from_aux acc2 rest

/-- `TryFrom<Container> for std::time::Duration`, starting from
`Duration::new(0, 0)`. -/
def try_from (c : Container) : RRes Int := try_from_aux 0 c.frags

/-- `parser::stdtime::parse`: grammar, then conversion. -/
def parse (s : String) : RRes Int :=
  match duration s.data with
  | none => .error .parseErr
  | some c => try_from c

end stdtime

namespace chrono

/-- `chrono::TimeDelta::new(secs, nanos)`: `None` when `nanos` is not in
`[0, 10^9)` or the total value exceeds `±i64::MAX` milliseconds. -/
def newTD (secs nanos : Int) : Option Int :=
  if 0 ≤ nanos ∧ nanos < 10 ^ 9 ∧ -chronoMaxNanos ≤ secs * 10 ^ 9 + nanos ∧
      secs * 10 ^ 9 + nanos ≤ chronoMaxNanos then
    some (secs * 10 ^ 9 + nanos)
  else none

/-- The `duration_ge_second!` macro of the `chrono` module: range-check the
seconds value against `i64::MIN/MAX as f64 = ∓2^63` (which also subsumes the
`is_infinite` test), split into truncated seconds (`as i64`, saturating) and
the nanosecond remainder (`as u32`, saturating, so negative remainders become
0), then `TimeDelta::new(..).unwrap()` — a panic when out of `TimeDelta`
range. -/
def duration_ge_second (secs_per_interval count : Dec) : RRes Int :=
  let seconds := secs_per_interval.mul count
  if seconds.bgtInt (2 ^ 63) || seconds.bltInt (-(2 ^ 63)) then .error .overflow
  else
    let nanosF := (seconds.sub (Dec.ofInt seconds.trunc)).mul Convert.NANOS_PER_SEC
    match newTD (satI64 seconds.trunc) (castU32 nanosF) with
    | some td => .ok td
    | none => .error .panicked

/-- The `duration_lt_second!` macro of the `chrono` module: range-check, then
`TimeDelta::nanoseconds(nanos.round() as i64)` (total, in `TimeDelta`
range). -/
def duration_lt_second (nanos_per_interval count : Dec) : RRes Int :=
  let nanos := nanos_per_interval.mul count
  if nanos.bgtInt (2 ^ 63) || nanos.bltInt (-(2 ^ 63)) then .error .overflow
  else .ok (satI64 nanos.roundAway)

/-- One arm of the `match` in `TryFrom<Container> for chrono::TimeDelta`. -/
def convPiece : Duration → RRes Int
  | .Year c => duration_ge_second Convert.SECS_PER_YEAR c
  | .Month c => duration_ge_second Convert.SECS_PER_MONTH c
  | .Week c => duration_ge_second Convert.SECS_PER_WEEK c
  | .Day c => duration_ge_second Convert.SECS_PER_DAY c
  | .Hour c => duration_ge_second Convert.SECS_PER_HOUR c
  | .Minute c => duration_ge_second Convert.SECS_PER_MIN c
  | .Second c => duration_ge_second (Dec.ofInt 1) c
  | .Millisecond c => duration_lt_second Convert.NANOS_PER_MILLI c
  | .Microsecond c => duration_lt_second Convert.NANOS_PER_MICRO c
  | .Nanosecond c => .ok c

/-- `duration_sum += piece`: `chrono::TimeDelta` addition panics when the sum
leaves the `TimeDelta` range. -/
def addDur (a b : Int) : RRes Int :=
  if -chronoMaxNanos ≤ a + b ∧ a + b ≤ chronoMaxNanos then .ok (a + b)
  else .error .panicked

/-- The summation loop of `TryFrom<Container> for chrono::TimeDelta`. -/
def try_from_aux : Int → List Duration → RRes Int
  | acc, [] => .ok acc
  | acc, d :: rest =>
      match convPiece d with
      | .error e => .error e
      | .ok p =>
          match addDur acc p with
          | .error e => .error e
          | .ok acc2 => try_from_aux acc2 rest

/-- `TryFrom<Container> for chrono::TimeDelta`, starting from
`TimeDelta::new(0, 0).unwrap() = 0`. -/
def try_from (c : Container) : RRes Int := try_from_aux 0 c.frags

/-- `parser::chrono::parse`: grammar, then conversion. -/
def parse (s : String) : RRes Int :=
  match duration s.data with
  | none => .error .parseErr
  | some c => try_from c

end chrono

namespace time

/-- `time::Duration::checked_seconds_f64`: `None` when the seconds value is
out of the `i64` seconds range (or NaN/infinite, impossible in the model);
otherwise the value rounded to the nearest nanosecond.  Modelled from the
`time` crate's documented semantics (the crate itself is an external
collaborator, see spec section 6). -/
def checked_seconds_f64 (q : Dec) : Option Int :=
  if q.bgtInt (2 ^ 63) || q.bltInt (-(2 ^ 63)) then none
  else some ((q.mul (Dec.ofInt (10 ^ 9))).rte)

/-- The `duration_ge_second!` macro of the `time` module:
`checked_seconds_f64(..).ok_or(DurationOverflow)?`. -/
def duration_ge_second (secs_per_interval count : Dec) : RRes Int :=
  match checked_seconds_f64 (secs_per_interval.mul count) with
  | none => .error .overflow
  | some v => .ok v

/-- The `duration_lt_second!` macro of the `time` module: range-check, then
`time::Duration::nanoseconds(nanos.round() as i64)`. -/
def duration_lt_second (nanos_per_interval count : Dec) : RRes Int :=
  let nanos := nanos_per_interval.mul count
  if nanos.bgtInt (2 ^ 63) || nanos.bltInt (-(2 ^ 63)) then .error .overflow
  else .ok (satI64 nanos.roundAway)

/-- One arm of the `match` in `TryFrom<Container> for time::Duration`. -/
def convPiece : Duration → RRes Int
  | .Year c => duration_ge_second Convert.SECS_PER_YEAR c
  | .Month c => duration_ge_second Convert.SECS_PER_MONTH c
  | .Week c => duration_ge_second Convert.SECS_PER_WEEK c
  | .Day c => duration_ge_second Convert.SECS_PER_DAY c
  | .Hour c => duration_ge_second Convert.SECS_PER_HOUR c
  | .Minute c => duration_ge_second Convert.SECS_PER_MIN c
  | .Second c => duration_ge_second (Dec.ofInt 1) c
  | .Millisecond c => duration_lt_second Convert.NANOS_PER_MILLI c
  | .Microsecond c => duration_lt_second Convert.NANOS_PER_MICRO c
  | .Nanosecond c => .ok c

/-- `duration_sum += piece`: `time::Duration` addition panics when the sum
leaves the `time::Duration` range. -/
def addDur (a b : Int) : RRes Int :=
  if timeMinNanos ≤ a + b ∧ a + b ≤ timeMaxNanos then .ok (a + b)
  else .error .panicked

/-- The summation loop of `TryFrom<Container> for time::Duration`. -/
def try_from_aux : Int → List Duration → RRes Int
  | acc, [] => .ok acc
  | acc, d :: rest =>
      match convPiece d with
      | .error e => .error e
      | .ok p =>
          match addDur acc p with
          | .error e => .error e
          | .ok acc2 => try_from_aux acc2 rest

/-- `TryFrom<Container> for time::Duration`, starting from
`Duration::new(0, 0) = 0`. -/
def try_from (c : Container) : RRes Int := try_from_aux 0 c.frags

/-- `parser::time::parse`: grammar, then conversion. -/
def parse (s : String) : RRes Int :=
  match duration s.data with
  | none => .error .parseErr
  | some c => try_from c

end time

/-! ## Generic helper lemmas about the combinators -/

/-- The head of `ys` (if any) falsifies `p`. -/
def headFails (p : Char → Bool) : List Char → Prop
  | [] => True
  | c :: _ => p c = false

instance (p : Char → Bool) (ys : List Char) : Decidable (headFails p ys) := by
  cases ys <;> simp [headFails] <;> infer_instance

theorem takeWhile_all_append (p : Char → Bool) (xs ys : List Char)
    (hx : ∀ c ∈ xs, p c = true) (hy : headFails p ys) :
    (xs ++ ys).takeWhile p = xs := by
  induction xs with
  | nil =>
      cases ys with
      | nil => rfl
      | cons c t =>
          have hc : p c = false := hy
          simp [List.takeWhile_cons, hc]
  | cons c t ih =>
      have hc : p c = true := hx c (by simp)
      simp [List.takeWhile_cons, hc]
      exact ih (fun d hd => hx d (by simp [hd]))

theorem dropWhile_all_append (p : Char → Bool) (xs ys : List Char)
    (hx : ∀ c ∈ xs, p c = true) (hy : headFails p ys) :
    (xs ++ ys).dropWhile p = ys := by
  induction xs with
  | nil =>
      cases ys with
      | nil => rfl
      | cons c t =>
          have hc : p c = false := hy
          simp [List.dropWhile_cons, hc]
  | cons c t ih =>
      have hc : p c = true := hx c (by simp)
      simp [List.dropWhile_cons, hc]
      exact ih (fun d hd => hx d (by simp [hd]))

theorem multispace0_ws_append (ws cs : List Char) (h : ∀ c ∈ ws, isWS c = true) :
    multispace0 (ws ++ cs) = multispace0 cs := by
  induction ws with
  | nil => rfl
  | cons c t ih =>
      have hc : isWS c = true := h c (by simp)
      simp [multispace0, List.dropWhile_cons, hc] at ih ⊢
      exact ih (fun d hd => h d (by simp [hd]))

theorem multispace0_headFails (cs : List Char) (h : headFails isWS cs) :
    multispace0 cs = cs := by
  cases cs with
  | nil => rfl
  | cons c t =>
      simp [headFails.eq_def] at h
      simp [multispace0, List.dropWhile_cons, h]

/-! ## Character-class facts -/

theorem isUnitChar_iff (c : Char) : isUnitChar c = true ↔ c ∈ unitAlphabet := by
  simp [isUnitChar]

theorem isWS_ne (c : Char) (h : isWS c = true) :
    isDigitC c = false ∧ (c == '.') = false ∧ isUnitChar c = false := by
  simp [isWS] at h
  rcases h with ((h | h) | h) | h <;> subst h <;> exact ⟨by decide, by decide, by decide⟩

theorem isUnitChar_ne (c : Char) (h : isUnitChar c = true) :
    isDigitC c = false ∧ (c == '.') = false ∧ isWS c = false := by
  have hm := (isUnitChar_iff c).mp h
  fin_cases hm <;> exact ⟨by decide, by decide, by decide⟩

theorem isDigitC_ne (c : Char) (h : isDigitC c = true) :
    c ≠ '-' ∧ c ≠ '+' ∧ (c == '.') = false ∧ isWS c = false := by
  refine ⟨fun e => by subst e; exact absurd h (by decide),
    fun e => by subst e; exact absurd h (by decide), ?_, ?_⟩
  · cases he : (c == '.') with
    | false => rfl
    | true =>
        have hce : c = '.' := by simpa using he
        subst hce
        exact absurd h (by decide)
  · cases hw : isWS c with
    | false => rfl
    | true =>
        have hne := isWS_ne c hw
        simp [hne.1] at h

/-! ## Structured numeric literals

A `NumLit` is the parse tree of one literal of the `float` grammar
`[+-]? (digit* '.')? digit+`; `render` prints it back and `value` is the exact
decimal it denotes.  These are used to quantify claims over all numeric
literals. -/

/-- A numeric literal of the `float` grammar: optional sign (`some true` =
`-`, `some false` = `+`), integer digits, optional fractional digits. -/
structure NumLit where
  sgn : Option Bool
  ip : List Char
  fp : Option (List Char)
deriving DecidableEq, Repr

/-- The text of the literal. -/
def NumLit.render (l : NumLit) : List Char :=
  (match l.sgn with
   | some true => ['-']
   | some false => ['+']
   | none => []) ++ l.ip ++ (match l.fp with | some f => '.' :: f | none => [])

/-- Well-formedness: digits are digits, a fractional part is nonempty, and a
literal without fractional part has at least one integer digit. -/
def NumLit.WF (l : NumLit) : Prop :=
  (∀ c ∈ l.ip, isDigitC c = true) ∧
  (match l.fp with
   | some f => (∀ c ∈ f, isDigitC c = true) ∧ f ≠ []
   | none => l.ip ≠ [])

instance (l : NumLit) : Decidable l.WF := by
  unfold NumLit.WF
  cases l.fp <;> simp <;> infer_instance

/-- The exact decimal value of the literal — the value `str::parse::<f64>`
would return when this value is itself a binary64 number (`repF64`); for
other literals Rust additionally rounds to the nearest double, which the
model does not (see header). -/
def NumLit.value (l : NumLit) : Dec :=
  let m : Int := (digitsToNat (l.ip ++ l.fp.getD []) : Int)
  ⟨if l.sgn = some true then -m else m, (l.fp.getD []).length⟩

/-- The odd part of `n` (fuel-driven so that the kernel can evaluate it). -/
def oddPartF : Nat → Nat → Nat
  | 0, n => n
  | fuel + 1, n => if n % 2 == 0 && n != 0 then oddPartF fuel (n / 2) else n

/-- A sufficient check that the exact value of a decimal fraction is itself a
binary64 floating-point number, so that `str::parse::<f64>` returns it
unchanged and the exact-decimal model coincides with the program on it.
Soundness: for a nonzero value `±n / 10^k`, the conditions give
`±n / 10^k = ±m · 2^(s - k)` with `m` odd, `m < 2^53` (53-bit mantissa),
magnitude at least `2^-300` (no subnormals, since `k ≤ 300`) and less than
`2^255` (comfortably inside the double range), hence a representable
double. -/
def repF64 (a : Dec) : Bool :=
  let n := a.num.natAbs
  let k := a.exp
  (n == 0) ||
    (decide (k ≤ 300) && (n % 5 ^ k == 0) &&
      (let n2 := n / 5 ^ k
       decide (n2 < 2 ^ 255) && decide (oddPartF 400 n2 < 2 ^ 53)))

/-- The predicate falsified by any character that cannot continue a `float`
literal: digits and the decimal point. -/
def isDigitDot (c : Char) : Bool := isDigitC c || (c == '.')

theorem floatAfterSign_render (neg : Bool) (ip : List Char) (fpo : Option (List Char))
    (rest : List Char) (hip : ∀ c ∈ ip, isDigitC c = true)
    (hfp : match fpo with
           | some f => (∀ c ∈ f, isDigitC c = true) ∧ f ≠ []
           | none => ip ≠ [])
    (hrest : headFails isDigitDot rest) :
    floatAfterSign neg (ip ++ (match fpo with | some f => '.' :: f | none => []) ++ rest) =
      some (rest,
        ⟨if neg then -(digitsToNat (ip ++ fpo.getD []) : Int)
          else (digitsToNat (ip ++ fpo.getD []) : Int),
         (fpo.getD []).length⟩) := by
  have hrestD : headFails isDigitC rest := by
    cases rest with
    | nil => trivial
    | cons c t =>
        have h2 : isDigitDot c = false := hrest
        simp [isDigitDot] at h2
        exact h2.1
  cases fpo with
  | some f =>
      obtain ⟨hf, hfne⟩ := hfp
      have hassoc : ip ++ ('.' :: f) ++ rest = ip ++ ('.' :: (f ++ rest)) := by simp
      rw [hassoc]
      simp only [floatAfterSign]
      rw [takeWhile_all_append isDigitC ip ('.' :: (f ++ rest)) hip rfl,
        dropWhile_all_append isDigitC ip ('.' :: (f ++ rest)) hip rfl]
      simp only []
      rw [takeWhile_all_append isDigitC f rest hf hrestD,
        dropWhile_all_append isDigitC f rest hf hrestD]
      cases f with
      | nil => exact absurd rfl hfne
      | cons c t => simp
  | none =>
      have hassoc : ip ++ [] ++ rest = ip ++ rest := by simp
      rw [hassoc]
      simp only [floatAfterSign]
      rw [takeWhile_all_append isDigitC ip rest hip hrestD,
        dropWhile_all_append isDigitC ip rest hip hrestD]
      cases rest with
      | nil =>
          cases ip with
          | nil => exact absurd rfl hfp
          | cons c t => simp
      | cons r rt =>
          have hrne : (r == '.') = false := by
            have h2 : isDigitDot r = false := hrest
            simp [isDigitDot] at h2
            simpa using h2.2
          have hrne2 : r ≠ '.' := by simpa using hrne
          split
          · rename_i csB heq
            injection heq with h1 h2
            exact absurd h1 hrne2
          · cases ip with
            | nil => exact absurd rfl hfp
            | cons c t => simp

theorem floatAfterSign_render_some (neg : Bool) (ip f rest : List Char)
    (hip : ∀ c ∈ ip, isDigitC c = true) (hf : ∀ c ∈ f, isDigitC c = true) (hfne : f ≠ [])
    (hrest : headFails isDigitDot rest) :
    floatAfterSign neg ((ip ++ ('.' :: f)) ++ rest) =
      some (rest,
        ⟨if neg then -(digitsToNat (ip ++ f) : Int) else (digitsToNat (ip ++ f) : Int),
         f.length⟩) :=
  floatAfterSign_render neg ip (some f) rest hip ⟨hf, hfne⟩ hrest

theorem floatAfterSign_render_none (neg : Bool) (ip rest : List Char)
    (hip : ∀ c ∈ ip, isDigitC c = true) (hipne : ip ≠ [])
    (hrest : headFails isDigitDot rest) :
    floatAfterSign neg (ip ++ rest) =
      some (rest,
        ⟨if neg then -(digitsToNat ip : Int) else (digitsToNat ip : Int), 0⟩) := by
  have h := floatAfterSign_render neg ip none rest hip hipne hrest
  simpa using h

theorem float_cons_minus (t : List Char) : float ('-' :: t) = floatAfterSign true t := by
  simp [float]

theorem float_cons_plus (t : List Char) : float ('+' :: t) = floatAfterSign false t := by
  simp [float]

theorem float_cons_other (c : Char) (t : List Char) (h1 : c ≠ '-') (h2 : c ≠ '+') :
    float (c :: t) = floatAfterSign false (c :: t) := by
  simp [float, h1, h2]

theorem float_render (l : NumLit) (rest : List Char) (hWF : l.WF)
    (hrest : headFails isDigitDot rest) :
    float (l.render ++ rest) = some (rest, l.value) := by
  obtain ⟨sgn, ip, fp⟩ := l
  obtain ⟨hip, hfp⟩ := hWF
  cases fp with
  | some f =>
      obtain ⟨hf, hfne⟩ := hfp
      cases sgn with
      | some b =>
          cases b with
          | true =>
              show float ('-' :: ((ip ++ ('.' :: f)) ++ rest)) = _
              rw [float_cons_minus, floatAfterSign_render_some true ip f rest hip hf hfne hrest]
              simp [NumLit.value]
          | false =>
              show float ('+' :: ((ip ++ ('.' :: f)) ++ rest)) = _
              rw [float_cons_plus, floatAfterSign_render_some false ip f rest hip hf hfne hrest]
              simp [NumLit.value]
      | none =>
          cases ip with
          | nil =>
              show float ('.' :: (f ++ rest)) = _
              rw [float_cons_other '.' (f ++ rest) (by decide) (by decide)]
              show floatAfterSign false ((([] : List Char) ++ ('.' :: f)) ++ rest) = _
              rw [floatAfterSign_render_some false [] f rest (by simp) hf hfne hrest]
              simp [NumLit.value]
          | cons c t =>
              have hc : isDigitC c = true := hip c (by simp)
              have hcn := isDigitC_ne c hc
              show float (c :: ((t ++ ('.' :: f)) ++ rest)) = _
              rw [float_cons_other c ((t ++ ('.' :: f)) ++ rest) hcn.1 hcn.2.1]
              show floatAfterSign false (((c :: t) ++ ('.' :: f)) ++ rest) = _
              rw [floatAfterSign_render_some false (c :: t) f rest hip hf hfne hrest]
              simp [NumLit.value]
  | none =>
      cases sgn with
      | some b =>
          cases b with
          | true =>
              have hr : NumLit.render ⟨some true, ip, none⟩ = '-' :: ip := by
                simp [NumLit.render]
              rw [hr, List.cons_append, float_cons_minus,
                floatAfterSign_render_none true ip rest hip hfp hrest]
              simp [NumLit.value]
          | false =>
              have hr : NumLit.render ⟨some false, ip, none⟩ = '+' :: ip := by
                simp [NumLit.render]
              rw [hr, List.cons_append, float_cons_plus,
                floatAfterSign_render_none false ip rest hip hfp hrest]
              simp [NumLit.value]
      | none =>
          cases ip with
          | nil => exact absurd rfl hfp
          | cons c t =>
              have hc : isDigitC c = true := hip c (by simp)
              have hcn := isDigitC_ne c hc
              have hr : NumLit.render ⟨none, c :: t, none⟩ = c :: t := by
                simp [NumLit.render]
              rw [hr, List.cons_append, float_cons_other c (t ++ rest) hcn.1 hcn.2.1]
              show floatAfterSign false ((c :: t) ++ rest) = _
              rw [floatAfterSign_render_none false (c :: t) rest hip (by simp) hrest]
              simp [NumLit.value]

/-! ## Unit-word lemmas -/

theorem timespan_word_split (w rest : List Char) (hw : w ≠ [])
    (hall : ∀ c ∈ w, isUnitChar c = true) (hrest : headFails isUnitChar rest) :
    timespan_word (w ++ rest) = some (rest, w) := by
  unfold timespan_word
  rw [takeWhile_all_append isUnitChar w rest hall hrest,
    dropWhile_all_append isUnitChar w rest hall hrest]
  cases w with
  | nil => exact absurd rfl hw
  | cons c t => simp

theorem timespan_period_split (w rest : List Char) (hw : w ≠ [])
    (hall : ∀ c ∈ w, isUnitChar c = true) (hrest : headFails isUnitChar rest) :
    timespan_period (w ++ rest) =
      match matchUnit w with
      | none => none
      | some u => some (rest, u) := by
  unfold timespan_period
  rw [timespan_word_split w rest hw hall hrest]

/-- Every recognized spelling is a nonempty word over the unit alphabet. -/
theorem spellings_wordlike :
    ∀ u ∈ unitOrder, ∀ w ∈ spellings u, w ≠ [] ∧ ∀ c ∈ w, isUnitChar c = true := by
  decide

/-- Every unit occurs in the `alt` order. -/
theorem unitOrder_complete : ∀ u : DurationUnit, u ∈ unitOrder := by
  intro u
  cases u <;> decide

/-- Every recognized spelling resolves, through the ordered alternatives, to
its own unit. -/
theorem matchUnit_of_mem : ∀ u ∈ unitOrder, ∀ w ∈ spellings u, matchUnit w = some u := by
  decide

theorem matchUnit_sound_aux (L : List DurationUnit) (w : List Char) (u : DurationUnit)
    (h : L.foldr (fun x acc => (timespan_period_unit x w).orElse (fun _ => acc)) none = some u) :
    w ∈ spellings u := by
  induction L with
  | nil => exact absurd h (by simp)
  | cons x L ih =>
      simp only [List.foldr_cons] at h
      by_cases hm : w ∈ spellings x
      · simp [timespan_period_unit, hm, Option.orElse] at h
        subst h
        exact hm
      · simp [timespan_period_unit, hm, Option.orElse] at h
        apply ih
        simpa [timespan_period_unit, Option.orElse] using h

/-- `matchUnit` only returns a unit whose spelling list contains the word. -/
theorem matchUnit_sound (w : List Char) (u : DurationUnit) (h : matchUnit w = some u) :
    w ∈ spellings u :=
  matchUnit_sound_aux unitOrder w u h

/-! ## Fragment-level composition lemmas -/

/-- The fragment produced from a parsed magnitude and unit (the `match unit`
of `duration_fragment`), `none` when the nanosecond range check fails. -/
def fragOf (u : DurationUnit) (v : Dec) : Option Duration :=
  match u with
  | .Year => some (.Year v)
  | .Month => some (.Month v)
  | .Week => some (.Week v)
  | .Day => some (.Day v)
  | .Hour => some (.Hour v)
  | .Minute => some (.Minute v)
  | .Second => some (.Second v)
  | .Millisecond => some (.Millisecond v)
  | .Microsecond => some (.Microsecond v)
  | .Nanosecond =>
      if v.bltInt (-(2 ^ 63)) || v.bgtInt (2 ^ 63) then none
      else some (.Nanosecond (castI64 v))

theorem render_headFails (l : NumLit) (hWF : l.WF) (rest : List Char) (p : Char → Bool)
    (hm : p '-' = false) (hp : p '+' = false) (hd : p '.' = false)
    (hdig : ∀ c, isDigitC c = true → p c = false) :
    headFails p (l.render ++ rest) := by
  obtain ⟨sgn, ip, fp⟩ := l
  obtain ⟨hip, hfp⟩ := hWF
  cases sgn with
  | some b =>
      cases b with
      | true => exact hm
      | false => exact hp
  | none =>
      cases ip with
      | cons c t => exact hdig c (hip c (by simp))
      | nil =>
          cases fp with
          | some f => exact hd
          | none => exact absurd rfl hfp

theorem timespan_period_whole (w : List Char) (hw : w ≠ [])
    (hall : ∀ c ∈ w, isUnitChar c = true) :
    timespan_period w =
      match matchUnit w with
      | none => none
      | some u => some (([] : List Char), u) := by
  have h := timespan_period_split w [] hw hall trivial
  simpa using h

theorem spelling_headFails (u : DurationUnit) (s : List Char) (hs : s ∈ spellings u)
    (p : Char → Bool) (h : ∀ c, isUnitChar c = true → p c = false) : headFails p s := by
  have hsw := spellings_wordlike u (unitOrder_complete u) s hs
  cases s with
  | nil => trivial
  | cons c t => exact h c (hsw.2 c (by simp))

theorem duration_fragment_render (l : NumLit) (u : DurationUnit) (s : List Char)
    (hWF : l.WF) (hs : s ∈ spellings u) :
    duration_fragment (l.render ++ s) =
      (fragOf u l.value).map (fun d => (([] : List Char), d)) := by
  have hsw := spellings_wordlike u (unitOrder_complete u) s hs
  have hheadDD : headFails isDigitDot s := by
    refine spelling_headFails u s hs _ (fun c hc => ?_)
    have hn := isUnitChar_ne c hc
    simp [isDigitDot, hn.1, hn.2.1]
  have hheadWS : headFails isWS s :=
    spelling_headFails u s hs _ (fun c hc => (isUnitChar_ne c hc).2.2)
  have h0 : multispace0 (l.render ++ s) = l.render ++ s :=
    multispace0_headFails _ (render_headFails l hWF s isWS (by decide) (by decide) (by decide)
      (fun c hc => (isDigitC_ne c hc).2.2.2))
  unfold duration_fragment
  rw [h0, float_render l s hWF hheadDD]
  simp only []
  rw [multispace0_headFails s hheadWS,
    timespan_period_whole s hsw.1 hsw.2,
    matchUnit_of_mem u (unitOrder_complete u) s hs]
  cases u <;> simp [fragOf]
  split <;> simp

theorem full_duration_render (l : NumLit) (u : DurationUnit) (s : List Char)
    (hWF : l.WF) (hs : s ∈ spellings u) :
    full_duration (l.render ++ s) =
      (fragOf u l.value).map (fun d => (([] : List Char), [d])) := by
  unfold full_duration
  rw [duration_fragment_render l u s hWF hs]
  cases hf : fragOf u l.value with
  | none => simp
  | some d => simp [manyStar]

theorem raw_seconds_render (l : NumLit) (u : DurationUnit) (s : List Char)
    (hWF : l.WF) (hs : s ∈ spellings u) :
    raw_seconds (l.render ++ s) = none := by
  have hsw := spellings_wordlike u (unitOrder_complete u) s hs
  have hheadDD : headFails isDigitDot s := by
    refine spelling_headFails u s hs _ (fun c hc => ?_)
    have hn := isUnitChar_ne c hc
    simp [isDigitDot, hn.1, hn.2.1]
  have hheadWS : headFails isWS s :=
    spelling_headFails u s hs _ (fun c hc => (isUnitChar_ne c hc).2.2)
  have h0 : multispace0 (l.render ++ s) = l.render ++ s :=
    multispace0_headFails _ (render_headFails l hWF s isWS (by decide) (by decide) (by decide)
      (fun c hc => (isDigitC_ne c hc).2.2.2))
  unfold raw_seconds
  rw [h0, float_render l s hWF hheadDD]
  simp only []
  rw [multispace0_headFails s hheadWS]
  cases s with
  | nil => exact absurd rfl hsw.1
  | cons c t => simp

theorem duration_render (l : NumLit) (u : DurationUnit) (s : List Char)
    (hWF : l.WF) (hs : s ∈ spellings u) :
    duration (l.render ++ s) = (fragOf u l.value).map (fun d => Container.mk [d]) := by
  unfold duration
  rw [raw_seconds_render l u s hWF hs, full_duration_render l u s hWF hs]
  cases fragOf u l.value <;> simp

/-! ## Whitespace-insensitivity lemmas -/

theorem headFails_append (p : Char → Bool) (xs ys : List Char)
    (hx : ∀ c ∈ xs, p c = false) (hy : headFails p ys) : headFails p (xs ++ ys) := by
  cases xs with
  | nil => exact hy
  | cons c t => exact hx c (by simp)

theorem duration_fragment_ws (ws cs : List Char) (h : ∀ c ∈ ws, isWS c = true) :
    duration_fragment (ws ++ cs) = duration_fragment cs := by
  unfold duration_fragment
  rw [multispace0_ws_append ws cs h]

theorem raw_seconds_ws (ws cs : List Char) (h : ∀ c ∈ ws, isWS c = true) :
    raw_seconds (ws ++ cs) = raw_seconds cs := by
  unfold raw_seconds
  rw [multispace0_ws_append ws cs h]

theorem full_duration_ws (ws cs : List Char) (h : ∀ c ∈ ws, isWS c = true) :
    full_duration (ws ++ cs) = full_duration cs := by
  unfold full_duration
  rw [duration_fragment_ws ws cs h]

theorem duration_ws (ws cs : List Char) (h : ∀ c ∈ ws, isWS c = true) :
    duration (ws ++ cs) = duration cs := by
  unfold duration
  rw [raw_seconds_ws ws cs h, full_duration_ws ws cs h]

theorem duration_fragment_render_ws (l : NumLit) (ws : List Char) (u : DurationUnit)
    (s : List Char) (hWF : l.WF) (hws : ∀ c ∈ ws, isWS c = true) (hs : s ∈ spellings u) :
    duration_fragment (l.render ++ (ws ++ s)) =
      (fragOf u l.value).map (fun d => (([] : List Char), d)) := by
  have hsw := spellings_wordlike u (unitOrder_complete u) s hs
  have hheadDDs : headFails isDigitDot s := by
    refine spelling_headFails u s hs _ (fun c hc => ?_)
    have hn := isUnitChar_ne c hc
    simp [isDigitDot, hn.1, hn.2.1]
  have hheadDD : headFails isDigitDot (ws ++ s) := by
    refine headFails_append _ ws s (fun c hc => ?_) hheadDDs
    have hn := isWS_ne c (hws c hc)
    simp [isDigitDot, hn.1, hn.2.1]
  have hheadWSs : headFails isWS s :=
    spelling_headFails u s hs _ (fun c hc => (isUnitChar_ne c hc).2.2)
  have h0 : multispace0 (l.render ++ (ws ++ s)) = l.render ++ (ws ++ s) :=
    multispace0_headFails _ (render_headFails l hWF (ws ++ s) isWS (by decide) (by decide)
      (by decide) (fun c hc => (isDigitC_ne c hc).2.2.2))
  unfold duration_fragment
  rw [h0, float_render l (ws ++ s) hWF hheadDD]
  simp only []
  rw [multispace0_ws_append ws s hws, multispace0_headFails s hheadWSs,
    timespan_period_whole s hsw.1 hsw.2,
    matchUnit_of_mem u (unitOrder_complete u) s hs]
  cases u <;> simp [fragOf]
  split <;> simp

theorem full_duration_render_ws (l : NumLit) (ws : List Char) (u : DurationUnit)
    (s : List Char) (hWF : l.WF) (hws : ∀ c ∈ ws, isWS c = true) (hs : s ∈ spellings u) :
    full_duration (l.render ++ (ws ++ s)) =
      (fragOf u l.value).map (fun d => (([] : List Char), [d])) := by
  unfold full_duration
  rw [duration_fragment_render_ws l ws u s hWF hws hs]
  cases hf : fragOf u l.value with
  | none => simp
  | some d => simp [manyStar]

theorem raw_seconds_render_ws (l : NumLit) (ws : List Char) (u : DurationUnit)
    (s : List Char) (hWF : l.WF) (hws : ∀ c ∈ ws, isWS c = true) (hs : s ∈ spellings u) :
    raw_seconds (l.render ++ (ws ++ s)) = none := by
  have hsw := spellings_wordlike u (unitOrder_complete u) s hs
  have hheadDDs : headFails isDigitDot s := by
    refine spelling_headFails u s hs _ (fun c hc => ?_)
    have hn := isUnitChar_ne c hc
    simp [isDigitDot, hn.1, hn.2.1]
  have hheadDD : headFails isDigitDot (ws ++ s) := by
    refine headFails_append _ ws s (fun c hc => ?_) hheadDDs
    have hn := isWS_ne c (hws c hc)
    simp [isDigitDot, hn.1, hn.2.1]
  have hheadWSs : headFails isWS s :=
    spelling_headFails u s hs _ (fun c hc => (isUnitChar_ne c hc).2.2)
  have h0 : multispace0 (l.render ++ (ws ++ s)) = l.render ++ (ws ++ s) :=
    multispace0_headFails _ (render_headFails l hWF (ws ++ s) isWS (by decide) (by decide)
      (by decide) (fun c hc => (isDigitC_ne c hc).2.2.2))
  unfold raw_seconds
  rw [h0, float_render l (ws ++ s) hWF hheadDD]
  simp only []
  rw [multispace0_ws_append ws s hws, multispace0_headFails s hheadWSs]
  cases s with
  | nil => exact absurd rfl hsw.1
  | cons c t => simp

theorem duration_render_ws (l : NumLit) (ws : List Char) (u : DurationUnit) (s : List Char)
    (hWF : l.WF) (hws : ∀ c ∈ ws, isWS c = true) (hs : s ∈ spellings u) :
    duration (l.render ++ (ws ++ s)) = (fragOf u l.value).map (fun d => Container.mk [d]) := by
  unfold duration
  rw [raw_seconds_render_ws l ws u s hWF hws hs, full_duration_render_ws l ws u s hWF hws hs]
  cases fragOf u l.value <;> simp

/-! ## Backend arithmetic lemmas -/

theorem rte_nonneg (a : Dec) (h : 0 ≤ a.num) : 0 ≤ a.rte := by
  have hd : (0 : Int) < pow10 a.exp := by
    unfold pow10
    positivity
  have hf : 0 ≤ a.num.fdiv (pow10 a.exp) := Int.fdiv_nonneg h (le_of_lt hd)
  simp only [Dec.rte]
  split
  · exact hf
  · split
    · omega
    · split <;> omega

theorem from_secs_f64_ok_nonneg (q : Dec) (n : Int) (h : from_secs_f64 q = .ok n) : 0 ≤ n := by
  unfold from_secs_f64 at h
  by_cases hneg : q.isNeg
  · simp [hneg] at h
  · simp [hneg] at h
    split at h
    · exact absurd h (by simp)
    · have hq : 0 ≤ q.num := by
        simp [Dec.isNeg] at hneg
        exact hneg
      have hm : 0 ≤ (q.mul (Dec.ofInt (10 ^ 9))).num := by
        simp [Dec.mul, Dec.ofInt]
        positivity
      have hn := rte_nonneg (q.mul (Dec.ofInt (10 ^ 9))) hm
      simp only [Except.ok.injEq] at h
      exact h ▸ hn

theorem stdtime_ge_ok_nonneg (f c : Dec) (p : Int)
    (h : stdtime.duration_ge_second f c = .ok p) : 0 ≤ p := by
  simp only [stdtime.duration_ge_second] at h
  split at h
  · exact absurd h (by simp)
  · exact from_secs_f64_ok_nonneg _ p h

theorem stdtime_lt_ok_nonneg (f c : Dec) (p : Int)
    (h : stdtime.duration_lt_second f c = .ok p) : 0 ≤ p := by
  simp only [stdtime.duration_lt_second] at h
  split at h
  · exact absurd h (by simp)
  · split at h
    · exact absurd h (by simp)
    · simp only [Except.ok.injEq] at h
      omega

theorem stdtime_piece_nonneg (d : Duration) (p : Int) (h : stdtime.convPiece d = .ok p) :
    0 ≤ p := by
  cases d <;> simp only [stdtime.convPiece] at h
  case Nanosecond n =>
    split at h
    · exact absurd h (by simp)
    · simp only [Except.ok.injEq] at h
      omega
  case Millisecond c => exact stdtime_lt_ok_nonneg _ c p h
  case Microsecond c => exact stdtime_lt_ok_nonneg _ c p h
  all_goals exact stdtime_ge_ok_nonneg _ _ p h

theorem stdtime_aux_mono (l : List Duration) :
    ∀ acc r : Int, stdtime.try_from_aux acc l = .ok r → acc ≤ r := by
  induction l with
  | nil =>
      intro acc r h
      simp only [stdtime.try_from_aux, Except.ok.injEq] at h
      omega
  | cons d rest ih =>
      intro acc r h
      simp only [stdtime.try_from_aux] at h
      cases hp : stdtime.convPiece d with
      | error e => rw [hp] at h; exact absurd h (by simp)
      | ok p =>
          rw [hp] at h
          dsimp only [] at h
          have hpn := stdtime_piece_nonneg d p hp
          cases ha : stdtime.addDur acc p with
          | error e => rw [ha] at h; exact absurd h (by simp)
          | ok acc2 =>
              rw [ha] at h
              dsimp only [] at h
              have h2 := ih acc2 r h
              simp only [stdtime.addDur] at ha
              split at ha
              · exact absurd ha (by simp)
              · simp only [Except.ok.injEq] at ha
                omega

theorem stdtime_aux_shift (l : List Duration) :
    ∀ x y r : Int, stdtime.try_from_aux x l = .ok r → 0 ≤ y → r + y ≤ stdMaxNanos →
      stdtime.try_from_aux (x + y) l = .ok (r + y) := by
  induction l with
  | nil =>
      intro x y r h hy hb
      simp only [stdtime.try_from_aux, Except.ok.injEq] at h ⊢
      omega
  | cons d rest ih =>
      intro x y r h hy hb
      simp only [stdtime.try_from_aux] at h ⊢
      cases hp : stdtime.convPiece d with
      | error e => rw [hp] at h; exact absurd h (by simp)
      | ok p =>
          rw [hp] at h
          dsimp only [] at h ⊢
          have hpn := stdtime_piece_nonneg d p hp
          cases ha : stdtime.addDur x p with
          | error e => rw [ha] at h; exact absurd h (by simp)
          | ok acc2 =>
              rw [ha] at h
              dsimp only [] at h
              simp only [stdtime.addDur] at ha
              split at ha
              · exact absurd ha (by simp)
              · simp only [Except.ok.injEq] at ha
                subst ha
                have hmono := stdtime_aux_mono rest (x + p) r h
                have ha2 : stdtime.addDur (x + y) p = .ok (x + p + y) := by
                  simp only [stdtime.addDur]
                  split
                  · omega
                  · congr 1
                    omega
                rw [ha2]
                dsimp only []
                exact ih (x + p) y r h hy hb

theorem stdtime_aux_append (l1 l2 : List Duration) :
    ∀ acc : Int, stdtime.try_from_aux acc (l1 ++ l2) =
      match stdtime.try_from_aux acc l1 with
      | .error e => .error e
      | .ok m => stdtime.try_from_aux m l2 := by
  induction l1 with
  | nil => intro acc; simp [stdtime.try_from_aux]
  | cons d rest ih =>
      intro acc
      simp only [List.cons_append, stdtime.try_from_aux]
      cases hp : stdtime.convPiece d with
      | error e => dsimp only []
      | ok p =>
          dsimp only []
          cases ha : stdtime.addDur acc p with
          | error e => dsimp only []
          | ok acc2 =>
              dsimp only []
              exact ih acc2

/-- The additive-concatenation property of the `stdtime` conversion: when two
fragment lists convert successfully and the native sum fits, the
concatenation converts to exactly that sum. -/
theorem stdtime_try_from_append (l1 l2 : List Duration) (a b : Int)
    (h1 : stdtime.try_from ⟨l1⟩ = .ok a) (h2 : stdtime.try_from ⟨l2⟩ = .ok b)
    (hb : a + b ≤ stdMaxNanos) : stdtime.try_from ⟨l1 ++ l2⟩ = .ok (a + b) := by
  unfold stdtime.try_from at h1 h2 ⊢
  simp only [] at h1 h2 ⊢
  rw [stdtime_aux_append l1 l2 0, h1]
  dsimp only []
  have h0a : 0 ≤ a := stdtime_aux_mono l1 0 a h1
  have hsh := stdtime_aux_shift l2 0 a b h2 h0a (by omega)
  rw [show (0 : Int) + a = a from by omega] at hsh
  rw [hsh]
  congr 1
  omega

/-! ## The chrono ≥1-second conversion in closed form -/

/-- Closed form of the value built by the chrono `duration_ge_second!` macro
(stated from the amended claim): for a non-negative in-range seconds value the
result is the floor of the value in nanoseconds (whole seconds plus truncated
sub-second remainder); for a negative value the fractional part is discarded
(the negative nanosecond remainder saturates to 0 in the `as u32` cast), so
the result is the truncated seconds alone. -/
def chronoGeClosed (q : Dec) : Int :=
  if 0 ≤ q.num then (q.mul (Dec.ofInt (10 ^ 9))).floorv else q.trunc * 10 ^ 9

theorem pow10_zero : pow10 0 = 1 := rfl

theorem pow10_pos (e : Nat) : (0 : Int) < pow10 e := by
  unfold pow10
  positivity

theorem tdiv_decompose_pos (a d N : Int) (hd : 0 < d) (hN : 0 < N) (ha : 0 ≤ a) :
    0 ≤ ((a - a.tdiv d * d) * N).tdiv d ∧ ((a - a.tdiv d * d) * N).tdiv d < N ∧
      a.tdiv d * N + ((a - a.tdiv d * d) * N).tdiv d = (a * N).fdiv d := by
  have htd : a.tdiv d = a / d := Int.tdiv_eq_ediv ha (le_of_lt hd)
  have hr : a - a.tdiv d * d = a % d := by
    rw [htd, Int.emod_def]
    ring
  have hr0 : 0 ≤ a % d := Int.emod_nonneg a (ne_of_gt hd)
  have hrd : a % d < d := Int.emod_lt_of_pos a hd
  rw [hr, htd]
  have hrN : ((a % d) * N).tdiv d = ((a % d) * N) / d :=
    Int.tdiv_eq_ediv (by positivity) (le_of_lt hd)
  rw [hrN]
  refine ⟨Int.ediv_nonneg (by positivity) (le_of_lt hd), ?_, ?_⟩
  · rw [Int.ediv_lt_iff_lt_mul hd]
    have hlt : (a % d) * N < d * N := mul_lt_mul_of_pos_right hrd hN
    linarith
  · rw [Int.fdiv_eq_ediv _ (le_of_lt hd)]
    have ha2 : a * N = (a % d) * N + ((a / d) * N) * d := by
      have hk := Int.ediv_add_emod a d
      linear_combination (-N) * hk
    rw [ha2, Int.add_mul_ediv_right _ _ (ne_of_gt hd)]
    ring

theorem tdiv_decompose_neg (a d N : Int) (hd : 0 < d) (hN : 0 < N) (ha : a < 0) :
    -N < ((a - a.tdiv d * d) * N).tdiv d ∧ ((a - a.tdiv d * d) * N).tdiv d ≤ 0 := by
  have hna : (0 : Int) ≤ -a := by omega
  have htd : a.tdiv d = -((-a) / d) := by
    have h1 : (-(-a)).tdiv d = -((-a).tdiv d) := Int.neg_tdiv (-a) d
    rw [neg_neg] at h1
    rw [h1, Int.tdiv_eq_ediv hna (le_of_lt hd)]
  have hm0 : 0 ≤ (-a) % d := Int.emod_nonneg (-a) (ne_of_gt hd)
  have hmd : (-a) % d < d := Int.emod_lt_of_pos (-a) hd
  have hr : a - a.tdiv d * d = -((-a) % d) := by
    have hk := Int.ediv_add_emod (-a) d
    rw [htd]
    linear_combination hk
  rw [hr]
  have hneg : (-((-a) % d)) * N = -(((-a) % d) * N) := by ring
  rw [hneg, Int.neg_tdiv]
  have hmn : (((-a) % d) * N).tdiv d = (((-a) % d) * N) / d :=
    Int.tdiv_eq_ediv (by positivity) (le_of_lt hd)
  rw [hmn]
  have hnn0 : 0 ≤ (((-a) % d) * N) / d := Int.ediv_nonneg (by positivity) (le_of_lt hd)
  have hnnN : (((-a) % d) * N) / d < N := by
    rw [Int.ediv_lt_iff_lt_mul hd]
    have hlt : ((-a) % d) * N < d * N := mul_lt_mul_of_pos_right hmd hN
    linarith
  omega

theorem chrono_ge_second_overflow (f c : Dec)
    (h : ((f.mul c).bgtInt (2 ^ 63) || (f.mul c).bltInt (-(2 ^ 63))) = true) :
    chrono.duration_ge_second f c = .error .overflow := by
  simp only [chrono.duration_ge_second]
  rw [if_pos h]

theorem chrono_ge_second_ok (f c : Dec)
    (h : ((f.mul c).bgtInt (2 ^ 63) || (f.mul c).bltInt (-(2 ^ 63))) = false)
    (hlo : -chronoMaxNanos ≤ chronoGeClosed (f.mul c))
    (hhi : chronoGeClosed (f.mul c) ≤ chronoMaxNanos) :
    chrono.duration_ge_second f c = .ok (chronoGeClosed (f.mul c)) := by
  have h1 : (f.mul c).bgtInt (2 ^ 63) = false := by
    cases hb : (f.mul c).bgtInt (2 ^ 63) with
    | false => rfl
    | true => rw [hb] at h; simp at h
  have h2 : (f.mul c).bltInt (-(2 ^ 63)) = false := by
    cases hb : (f.mul c).bltInt (-(2 ^ 63)) with
    | false => rfl
    | true => rw [hb] at h; simp at h
  norm_num at h1 h2
  simp only [chrono.duration_ge_second]
  rw [if_neg (by simp [h1, h2])]
  generalize hq : f.mul c = q at hlo hhi ⊢
  obtain ⟨a, e⟩ := q
  set d : Int := pow10 e with hd_def
  have hd : (0 : Int) < d := pow10_pos e
  have ht : Dec.trunc ⟨a, e⟩ = a.tdiv d := rfl
  have hcast : castU32 ((Dec.sub ⟨a, e⟩ (Dec.ofInt (Dec.trunc ⟨a, e⟩))).mul Convert.NANOS_PER_SEC) =
      satU32 (((a - a.tdiv d * d) * 1000000000).tdiv d) := by
    simp [castU32, Dec.sub, Dec.mul, Dec.ofInt, Dec.trunc, Convert.NANOS_PER_SEC,
      pow10_zero, ← hd_def]
  rw [hcast, ht]
  have hmax : chronoMaxNanos = 9223372036854775807000000 := by norm_num [chronoMaxNanos]
  by_cases hsign : 0 ≤ a
  · obtain ⟨hnn0, hnnN, hid⟩ :=
      tdiv_decompose_pos a d 1000000000 hd (by norm_num) hsign
    have hclosed : chronoGeClosed ⟨a, e⟩ = a.tdiv d * 1000000000 +
        ((a - a.tdiv d * d) * 1000000000).tdiv d := by
      rw [hid]
      simp [chronoGeClosed, hsign, Dec.mul, Dec.ofInt, Dec.floorv, ← hd_def]
    rw [hclosed] at hlo hhi ⊢
    rw [hmax] at hlo hhi
    set t := a.tdiv d with hT
    set nn := ((a - t * d) * 1000000000).tdiv d with hNN
    have hsatU : satU32 nn = nn := by
      simp only [satU32, max_def, min_def]
      split <;> (try split) <;> omega
    have hsatI : satI64 t = t := by
      simp only [satI64, max_def, min_def]
      split <;> (try split) <;> omega
    rw [hsatU, hsatI]
    simp only [chrono.newTD]
    have hcond : 0 ≤ nn ∧ nn < 10 ^ 9 ∧ -chronoMaxNanos ≤ t * 10 ^ 9 + nn ∧
        t * 10 ^ 9 + nn ≤ chronoMaxNanos := by
      rw [hmax]
      refine ⟨by omega, by omega, by omega, by omega⟩
    rw [if_pos hcond]
    dsimp only []
    norm_num
  · have ha : a < 0 := by omega
    obtain ⟨hgt, hle⟩ := tdiv_decompose_neg a d 1000000000 hd (by norm_num) ha
    have hclosed : chronoGeClosed ⟨a, e⟩ = a.tdiv d * 1000000000 := by
      simp [chronoGeClosed, hsign, Dec.trunc, ← hd_def]
    rw [hclosed] at hlo hhi ⊢
    rw [hmax] at hlo hhi
    set t := a.tdiv d with hT
    set nn := ((a - t * d) * 1000000000).tdiv d with hNN
    have hsatU : satU32 nn = 0 := by
      simp only [satU32, max_def, min_def]
      split <;> (try split) <;> omega
    have hsatI : satI64 t = t := by
      simp only [satI64, max_def, min_def]
      split <;> (try split) <;> omega
    rw [hsatU, hsatI]
    simp only [chrono.newTD]
    have hcond : (0 : Int) ≤ 0 ∧ (0 : Int) < 10 ^ 9 ∧ -chronoMaxNanos ≤ t * 10 ^ 9 + 0 ∧
        t * 10 ^ 9 + 0 ≤ chronoMaxNanos := by
      rw [hmax]
      refine ⟨by omega, by omega, by omega, by omega⟩
    rw [if_pos hcond]
    dsimp only []
    norm_num

/-! ## Fold characterization and negative-magnitude lemmas -/

theorem stdtime_aux_foldlM (l : List Duration) : ∀ acc : Int,
    stdtime.try_from_aux acc l =
      l.foldlM (fun acc d => (stdtime.convPiece d).bind (stdtime.addDur acc)) acc := by
  induction l with
  | nil => intro acc; rfl
  | cons d rest ih =>
      intro acc
      simp only [stdtime.try_from_aux, List.foldlM_cons]
      cases hp : stdtime.convPiece d with
      | error e => rfl
      | ok p =>
          dsimp only [Except.bind]
          cases ha : stdtime.addDur acc p with
          | error e => rfl
          | ok acc2 => exact ih acc2

theorem chrono_aux_foldlM (l : List Duration) : ∀ acc : Int,
    chrono.try_from_aux acc l =
      l.foldlM (fun acc d => (chrono.convPiece d).bind (chrono.addDur acc)) acc := by
  induction l with
  | nil => intro acc; rfl
  | cons d rest ih =>
      intro acc
      simp only [chrono.try_from_aux, List.foldlM_cons]
      cases hp : chrono.convPiece d with
      | error e => rfl
      | ok p =>
          dsimp only [Except.bind]
          cases ha : chrono.addDur acc p with
          | error e => rfl
          | ok acc2 => exact ih acc2

theorem time_aux_foldlM (l : List Duration) : ∀ acc : Int,
    time.try_from_aux acc l =
      l.foldlM (fun acc d => (time.convPiece d).bind (time.addDur acc)) acc := by
  induction l with
  | nil => intro acc; rfl
  | cons d rest ih =>
      intro acc
      simp only [time.try_from_aux, List.foldlM_cons]
      cases hp : time.convPiece d with
      | error e => rfl
      | ok p =>
          dsimp only [Except.bind]
          cases ha : time.addDur acc p with
          | error e => rfl
          | ok acc2 => exact ih acc2

/-- A fragment whose magnitude is strictly negative, restricted to the unit
classes for which the unsigned backend rejects the sign itself: the
`duration_ge_second!` units (year..second) and the integer nanosecond
fragment.  (A negative float sub-second fragment can round to zero
nanoseconds and succeed — see the claim C3 counterexample.) -/
def negMagnitudeStrict : Duration → Bool
  | .Year c => c.isNeg
  | .Month c => c.isNeg
  | .Week c => c.isNeg
  | .Day c => c.isNeg
  | .Hour c => c.isNeg
  | .Minute c => c.isNeg
  | .Second c => c.isNeg
  | .Millisecond _ => false
  | .Microsecond _ => false
  | .Nanosecond n => decide (n < 0)

theorem sign_neg_of_isNeg (c : Dec) (h : c.isNeg = true) : c.signum ≤ -1 := by
  simp [Dec.isNeg] at h
  simp [Dec.signum, Int.sign_eq_neg_one_iff_neg.mpr h]

theorem stdtime_ge_neg_err (f c : Dec) (h : c.isNeg = true) :
    stdtime.duration_ge_second f c = .error .overflow := by
  simp only [stdtime.duration_ge_second]
  rw [if_pos (sign_neg_of_isNeg c h)]

theorem stdtime_piece_neg_err (d : Duration) (h : negMagnitudeStrict d = true) :
    stdtime.convPiece d = .error .overflow := by
  cases d with
  | Year c => exact stdtime_ge_neg_err _ c h
  | Month c => exact stdtime_ge_neg_err _ c h
  | Week c => exact stdtime_ge_neg_err _ c h
  | Day c => exact stdtime_ge_neg_err _ c h
  | Hour c => exact stdtime_ge_neg_err _ c h
  | Minute c => exact stdtime_ge_neg_err _ c h
  | Second c => exact stdtime_ge_neg_err _ c h
  | Millisecond c => exact absurd h (by simp [negMagnitudeStrict])
  | Microsecond c => exact absurd h (by simp [negMagnitudeStrict])
  | Nanosecond n =>
      simp only [negMagnitudeStrict, decide_eq_true_eq] at h
      simp only [stdtime.convPiece]
      rw [if_pos h]

theorem stdtime_neg_aux_not_ok (fs : List Duration) (d : Duration) (hneg : negMagnitudeStrict d = true) :
    ∀ acc v : Int, d ∈ fs → stdtime.try_from_aux acc fs ≠ .ok v := by
  induction fs with
  | nil => intro acc v hd; simp at hd
  | cons x rest ih =>
      intro acc v hd
      simp only [stdtime.try_from_aux]
      rcases List.mem_cons.mp hd with hx | hx
      · rw [stdtime_piece_neg_err x (by rw [← hx]; exact hneg)]
        simp
      · cases hp : stdtime.convPiece x with
        | error e => simp
        | ok p =>
            dsimp only []
            cases ha : stdtime.addDur acc p with
            | error e => simp
            | ok acc2 =>
                dsimp only []
                exact ih acc2 v hx

/-- The unsigned backend never produces a value from a container holding a
negative-magnitude fragment of a ≥1-second unit or a negative integer
nanosecond fragment. -/
theorem stdtime_neg_not_ok (fs : List Duration) (d : Duration) (hd : d ∈ fs)
    (hneg : negMagnitudeStrict d = true) (v : Int) : stdtime.try_from ⟨fs⟩ ≠ .ok v :=
  stdtime_neg_aux_not_ok fs d hneg 0 v hd

/-! ## Claim theorems -/

/-- Claim C1 (code bug): the spec promises that whenever
`factor(unit) * magnitude` exceeds the target's range, `parse` returns the
typed duration-overflow error and never panics.  The code instead panics: the
stdtime `duration_ge_second!` macro performs no magnitude check before
`std::time::Duration::from_secs_f64` (which panics above `u64::MAX` seconds),
and the chrono macro's `TimeDelta::new(..).unwrap()` panics for seconds
values inside the `i64` range but beyond `TimeDelta`'s ±`i64::MAX`
milliseconds.  Both panics are exhibited here on concrete inputs. -/
theorem C1_overflow_panics_instead_of_error :
    stdtime.parse ("100000000000000000000y") = .error .panicked ∧
    chrono.parse ("10000000000000000s") = .error .panicked := by
  exact ⟨by decide, by decide⟩

/-- Claim C2 (counterexample): the fractional part of a negative chrono
fragment is *not* preserved: `"-1.5s"` parses to exactly −1 second (the
−0.5 s remainder is dropped by the saturating `as u32` cast), not to the
−1.5 s the claim requires. -/
theorem C2_counterexample :
    chrono.parse ("-1.5s") = .ok (-1000000000) ∧
    chrono.parse ("-1.5s") ≠ .ok (-1500000000) := by
  exact ⟨by decide, by decide⟩

/-- Claim C2 (amended): for the chrono backend and units ≥ 1 second, a
seconds value outside `[-2^63, 2^63]` yields the overflow error; an in-range
value whose result fits the `TimeDelta` range yields truncated whole seconds
plus the saturating-cast nanosecond remainder — the floor of the value in
nanoseconds for non-negative fragments, but for negative fragments the
fractional part is discarded (remainder cast saturates to 0), e.g.
`"-1.5s" ↦ -1 s` while `"1.5s" ↦ 1.5 s`. -/
theorem C2_chrono_ge_second_conversion :
    (∀ f c : Dec, ((f.mul c).bgtInt (2 ^ 63) || (f.mul c).bltInt (-(2 ^ 63))) = true →
        chrono.duration_ge_second f c = .error .overflow) ∧
    (∀ f c : Dec, ((f.mul c).bgtInt (2 ^ 63) || (f.mul c).bltInt (-(2 ^ 63))) = false →
        -chronoMaxNanos ≤ chronoGeClosed (f.mul c) →
        chronoGeClosed (f.mul c) ≤ chronoMaxNanos →
        chrono.duration_ge_second f c = .ok (chronoGeClosed (f.mul c))) ∧
    chrono.parse ("1.5s") = .ok 1500000000 ∧
    chrono.parse ("-1.5s") = .ok (-1 * 1000000000) := by
  refine ⟨chrono_ge_second_overflow, chrono_ge_second_ok, by decide, by decide⟩

/-- Claim C2 witness: the amended conversion formula applied to the concrete
fragment −1.5 s. -/
theorem C2_witness :
    chrono.duration_ge_second (Dec.ofInt 1) ⟨-15, 1⟩ =
      .ok (chronoGeClosed ((Dec.ofInt 1).mul ⟨-15, 1⟩)) :=
  C2_chrono_ge_second_conversion.2.1 (Dec.ofInt 1) ⟨-15, 1⟩ (by decide) (by decide) (by decide)

/-- Claim C3 (counterexample): not *every* negative-magnitude fragment makes
the unsigned-backend parse fail: a negative float sub-second magnitude whose
nanosecond value rounds to zero succeeds.  `"-0.0000000001ms"` parses to the
fragment `Millisecond(-1e-10)` — a negative magnitude — yet
`stdtime::parse` returns `Ok(0)`. -/
theorem C3_counterexample :
    duration (("-0.0000000001ms").data) = some ⟨[Duration.Millisecond ⟨-1, 10⟩]⟩ ∧
    Dec.isNeg ⟨-1, 10⟩ = true ∧
    stdtime.parse ("-0.0000000001ms") = .ok 0 := by
  exact ⟨by decide, by decide, by decide⟩

/-- Claim C3 (amended): for the unsigned backend, every fragment with a
negative magnitude of a ≥1-second unit, and every negative integer
nanosecond fragment, makes the conversion fail (never `Ok`), e.g. `"-30d"`;
a negative float sub-second fragment fails unless its nanosecond value
rounds to zero (e.g. `"-0.001ms"` fails).  For the signed backends,
`"-1s-1ns"` succeeds and equals the negation of one second plus one
nanosecond. -/
theorem C3_negative_policy :
    (∀ (fs : List Duration) (d : Duration) (v : Int), d ∈ fs →
        negMagnitudeStrict d = true → stdtime.try_from ⟨fs⟩ ≠ .ok v) ∧
    stdtime.parse ("-30d") = .error .overflow ∧
    stdtime.parse ("-0.001ms") = .error .overflow ∧
    stdtime.parse ("-1ns") = .error .overflow ∧
    chrono.parse ("-1s-1ns") = .ok (-(1000000000 + 1)) ∧
    time.parse ("-1s-1ns") = .ok (-(1000000000 + 1)) := by
  refine ⟨fun fs d v hd hneg => stdtime_neg_not_ok fs d hd hneg v,
    by decide, by decide, by decide, by decide, by decide⟩

/-- Claim C3 witness: the general negative-fragment rejection applied to the
container of `"-30d"`. -/
theorem C3_witness : stdtime.try_from ⟨[Duration.Day ⟨-30, 0⟩]⟩ ≠ .ok 0 :=
  C3_negative_policy.1 [Duration.Day ⟨-30, 0⟩] (Duration.Day ⟨-30, 0⟩) 0 (by decide) (by decide)

/-- Claim C4: fragment concatenation is additive.  For every backend the
conversion is exactly the fold of the per-fragment conversions from the zero
duration (the `foldlM` characterizations); for the stdtime backend the
conversion of a concatenation of two successfully-converting fragment lists
is the checked native sum; and concretely `parse("1d3h")` equals the sum of
`parse("1d")` and `parse("3h")` on all three backends. -/
theorem C4_concatenation_additive :
    (∀ (l1 l2 : List Duration) (a b : Int), stdtime.try_from ⟨l1⟩ = .ok a →
        stdtime.try_from ⟨l2⟩ = .ok b → a + b ≤ stdMaxNanos →
        stdtime.try_from ⟨l1 ++ l2⟩ = .ok (a + b)) ∧
    (∀ c : Container, stdtime.try_from c =
        c.frags.foldlM (fun acc d => (stdtime.convPiece d).bind (stdtime.addDur acc)) 0) ∧
    (∀ c : Container, chrono.try_from c =
        c.frags.foldlM (fun acc d => (chrono.convPiece d).bind (chrono.addDur acc)) 0) ∧
    (∀ c : Container, time.try_from c =
        c.frags.foldlM (fun acc d => (time.convPiece d).bind (time.addDur acc)) 0) ∧
    (stdtime.parse ("1d3h") = .ok (86400000000000 + 10800000000000) ∧
      stdtime.parse ("1d") = .ok 86400000000000 ∧ stdtime.parse ("3h") = .ok 10800000000000) ∧
    (chrono.parse ("1d3h") = .ok (86400000000000 + 10800000000000) ∧
      chrono.parse ("1d") = .ok 86400000000000 ∧ chrono.parse ("3h") = .ok 10800000000000) ∧
    (time.parse ("1d3h") = .ok (86400000000000 + 10800000000000) ∧
      time.parse ("1d") = .ok 86400000000000 ∧ time.parse ("3h") = .ok 10800000000000) := by
  refine ⟨fun l1 l2 a b h1 h2 hb => stdtime_try_from_append l1 l2 a b h1 h2 hb,
    fun c => stdtime_aux_foldlM c.frags 0,
    fun c => chrono_aux_foldlM c.frags 0,
    fun c => time_aux_foldlM c.frags 0,
    ⟨by decide, by decide, by decide⟩, ⟨by decide, by decide, by decide⟩,
    ⟨by decide, by decide, by decide⟩⟩

/-- Claim C4 witness: the append property applied to the fragment lists of
`"1d"` and `"3h"`. -/
theorem C4_witness :
    stdtime.try_from ⟨[Duration.Day ⟨1, 0⟩] ++ [Duration.Hour ⟨3, 0⟩]⟩ =
      .ok (86400000000000 + 10800000000000) :=
  C4_concatenation_additive.1 [Duration.Day ⟨1, 0⟩] [Duration.Hour ⟨3, 0⟩]
    86400000000000 10800000000000 (by decide) (by decide) (by decide)

/-- Claim C5: unit-word matching is whole-word and case-sensitive.  The
maximal run of unit-alphabet characters after a number is captured and must
be consumed in full by exactly one recognized spelling (`timespan_period` on
`w ++ rest` succeeds with unit `u` exactly when `matchUnit w = some u`, and
`matchUnit w = some u` iff `w` is one of `u`'s spellings); `"mo"` resolves to
Month (never Minute plus a dangling `"o"`), `"M"` to Month, `"m"` to Minute,
and partially-matched (`"1mn"`) or unknown (`"30p"`) unit words fail. -/
theorem C5_whole_word_matching :
    (∀ w rest : List Char, w ≠ [] → (∀ c ∈ w, isUnitChar c = true) →
        headFails isUnitChar rest →
        timespan_period (w ++ rest) =
          match matchUnit w with
          | none => none
          | some u => some (rest, u)) ∧
    (∀ (w : List Char) (u : DurationUnit), matchUnit w = some u ↔ w ∈ spellings u) ∧
    matchUnit (("mo").data) = some DurationUnit.Month ∧
    matchUnit (("M").data) = some DurationUnit.Month ∧
    matchUnit (("m").data) = some DurationUnit.Minute ∧
    stdtime.parse ("1mo") = .ok 2629746000000000 ∧
    stdtime.parse ("1M") = .ok 2629746000000000 ∧
    stdtime.parse ("1m") = .ok 60000000000 ∧
    stdtime.parse ("1mn") = .error .parseErr ∧
    stdtime.parse ("30p") = .error .parseErr := by
  refine ⟨timespan_period_split,
    fun w u => ⟨matchUnit_sound w u, fun hm => matchUnit_of_mem u (unitOrder_complete u) w hm⟩,
    by decide, by decide, by decide, by decide, by decide, by decide, by decide, by decide⟩

/-- Claim C5 witness: the whole-word property applied to the word `"mo"`
with empty rest. -/
theorem C5_witness :
    timespan_period (("mo").data ++ ([] : List Char)) = some (([] : List Char), DurationUnit.Month) := by
  rw [C5_whole_word_matching.1 (("mo").data) [] (by decide) (by decide) trivial]
  decide

/-- Claim C6 (counterexample): `parse(" 1 d ")` does not equal
`parse("1d")` — trailing whitespace after the final unit word is not
consumed by any fragment, so `all_consuming` fails and every backend returns
a grammar error, while `parse("1d")` succeeds. -/
theorem C6_counterexample :
    stdtime.parse (" 1 d ") = .error .parseErr ∧
    stdtime.parse ("1d") = .ok 86400000000000 ∧
    chrono.parse (" 1 d ") = .error .parseErr ∧
    time.parse (" 1 d ") = .error .parseErr := by
  exact ⟨by decide, by decide, by decide, by decide⟩

/-- Claim C6 (amended): whitespace *before* a fragment's numeric literal and
*between* the literal and its unit word never changes the parse
(`parse("1d") = parse("1 d") = parse(" 1 d")`, and in general a whitespace
prefix or whitespace inserted between literal and unit is invisible to
`duration`); but trailing whitespace after a final unit word makes the parse
fail (see the counterexample), except in the bare-number form which allows
surrounding whitespace. -/
theorem C6_whitespace :
    (∀ ws cs : List Char, (∀ c ∈ ws, isWS c = true) → duration (ws ++ cs) = duration cs) ∧
    (∀ (l : NumLit) (ws : List Char) (u : DurationUnit) (s : List Char), l.WF →
        (∀ c ∈ ws, isWS c = true) → s ∈ spellings u →
        duration (l.render ++ (ws ++ s)) = duration (l.render ++ s)) ∧
    (stdtime.parse ("1d") = .ok 86400000000000 ∧ stdtime.parse ("1 d") = .ok 86400000000000 ∧
      stdtime.parse (" 1 d") = .ok 86400000000000) ∧
    (chrono.parse ("1d") = .ok 86400000000000 ∧ chrono.parse ("1 d") = .ok 86400000000000 ∧
      chrono.parse (" 1 d") = .ok 86400000000000) ∧
    (time.parse ("1d") = .ok 86400000000000 ∧ time.parse ("1 d") = .ok 86400000000000 ∧
      time.parse (" 1 d") = .ok 86400000000000) ∧
    (stdtime.parse (" 3 ") = .ok 3000000000 ∧ stdtime.parse ("3") = .ok 3000000000) := by
  refine ⟨duration_ws,
    fun l ws u s hWF hws hs => by
      rw [duration_render_ws l ws u s hWF hws hs, duration_render l u s hWF hs],
    ⟨by decide, by decide, by decide⟩, ⟨by decide, by decide, by decide⟩,
    ⟨by decide, by decide, by decide⟩, ⟨by decide, by decide⟩⟩

/-- Claim C6 witness: the whitespace-prefix property applied to `" 1d"`. -/
theorem C6_witness : duration (([' '] : List Char) ++ ("1d").data) = duration (("1d").data) :=
  C6_whitespace.1 [' '] (("1d").data) (by decide)

/-- Claim C7: the bare-number fallback means seconds —
`parse("3") = parse("3s")` on every backend — and bare-number and
unit-annotated forms are mutually exclusive: `"5 3d"` fails everywhere. -/
theorem C7_bare_number_fallback :
    stdtime.parse ("3") = .ok 3000000000 ∧ stdtime.parse ("3s") = .ok 3000000000 ∧
    chrono.parse ("3") = .ok 3000000000 ∧ chrono.parse ("3s") = .ok 3000000000 ∧
    time.parse ("3") = .ok 3000000000 ∧ time.parse ("3s") = .ok 3000000000 ∧
    stdtime.parse ("5 3d") = .error .parseErr ∧
    chrono.parse ("5 3d") = .error .parseErr ∧
    time.parse ("5 3d") = .error .parseErr := by
  exact ⟨by decide, by decide, by decide, by decide, by decide, by decide, by decide,
    by decide, by decide⟩

/-- Claim C8: spelling equivalence.  For every well-formed numeric literal,
every unit, and any two recognized spellings of that unit, parsing the
literal followed by either spelling yields the same result (value or error)
on every backend. -/
theorem C8_spelling_equivalence :
    ∀ (l : NumLit) (u : DurationUnit) (s1 s2 : List Char), l.WF →
      s1 ∈ spellings u → s2 ∈ spellings u →
      stdtime.parse (String.mk (l.render ++ s1)) = stdtime.parse (String.mk (l.render ++ s2)) ∧
      chrono.parse (String.mk (l.render ++ s1)) = chrono.parse (String.mk (l.render ++ s2)) ∧
      time.parse (String.mk (l.render ++ s1)) = time.parse (String.mk (l.render ++ s2)) := by
  intro l u s1 s2 hWF h1 h2
  have hd : duration (l.render ++ s1) = duration (l.render ++ s2) := by
    rw [duration_render l u s1 hWF h1, duration_render l u s2 hWF h2]
  refine ⟨?_, ?_, ?_⟩
  · simp only [stdtime.parse]
    rw [hd]
  · simp only [chrono.parse]
    rw [hd]
  · simp only [time.parse]
    rw [hd]

/-- Claim C8 witness: spelling equivalence of `"1years"` and `"1y"` on the
stdtime backend. -/
theorem C8_witness :
    stdtime.parse (String.mk ((⟨none, ("1").data, none⟩ : NumLit).render ++ ("years").data)) =
      stdtime.parse (String.mk ((⟨none, ("1").data, none⟩ : NumLit).render ++ ("y").data)) :=
  (C8_spelling_equivalence ⟨none, ("1").data, none⟩ DurationUnit.Year (("years").data)
    (("y").data) (by decide) (by decide) (by decide)).1

/-- Claim C9: the average-Gregorian factors are used consistently: on all
three backends `parse("1y")` is exactly 31,556,952 seconds and `parse("1M")`
exactly 2,629,746 seconds (given here in nanoseconds), and the conversion
constants equal those second counts exactly. -/
theorem C9_gregorian_factors :
    stdtime.parse ("1y") = .ok 31556952000000000 ∧
    chrono.parse ("1y") = .ok 31556952000000000 ∧
    time.parse ("1y") = .ok 31556952000000000 ∧
    stdtime.parse ("1M") = .ok 2629746000000000 ∧
    chrono.parse ("1M") = .ok 2629746000000000 ∧
    time.parse ("1M") = .ok 2629746000000000 ∧
    Convert.SECS_PER_YEAR.beqv (Dec.ofInt 31556952) = true ∧
    Convert.SECS_PER_MONTH.beqv (Dec.ofInt 2629746) = true := by
  exact ⟨by decide, by decide, by decide, by decide, by decide, by decide, by decide, by decide⟩

/-- Claim C10 (counterexample): a nanosecond magnitude outside the `i64`
range is *not* always a parse error: the magnitude `2^63`
(= 9,223,372,036,854,775,808 > `i64::MAX`) passes the range check, which
compares against `i64::MAX as f64 = 2^63`, and the `as i64` cast saturates
it to `i64::MAX`, so the parse *succeeds* with a silently clamped value. -/
theorem C10_counterexample :
    stdtime.parse ("9223372036854775808ns") = .ok 9223372036854775807 ∧
    stdtime.parse ("9223372036854775808ns") ≠ .error .parseErr := by
  exact ⟨by decide, by decide⟩

/-- Claim C10 (amended): a nanosecond fragment's literal is truncated toward
zero at parse time (`parse("1.9ns") = parse("1ns")`,
`parse("-0.4ns") = parse("0ns")` on every backend).  The range check applies
to the *parsed f64* magnitude, comparing against
`i64::MIN/MAX as f64 = ∓2^63`: for every literal whose exact value is itself
a binary64 number (`repF64`, so parsed = written value), a value strictly
outside `[-2^63, 2^63]` is reported as a grammar/parse error (never a
duration-overflow error), and an in-range value produces the fragment
`Nanosecond(value as i64)` — truncation toward zero with saturation, which
clamps the boundary value `2^63` to `i64::MAX`.  A written magnitude not
itself a double is first rounded by `str::parse::<f64>`, so magnitudes
within half an ulp beyond the boundary (e.g. `2^63 + 1`, or `-2^63 - 0.4`)
round onto `±2^63`, pass the check, and are clamped rather than rejected
(see the counterexample). -/
theorem C10_nanosecond_literal :
    (∀ l : NumLit, l.WF → repF64 l.value = true →
      ((l.value.bltInt (-(2 ^ 63)) || l.value.bgtInt (2 ^ 63)) = true →
          stdtime.parse (String.mk (l.render ++ ("ns").data)) = .error .parseErr ∧
          chrono.parse (String.mk (l.render ++ ("ns").data)) = .error .parseErr ∧
          time.parse (String.mk (l.render ++ ("ns").data)) = .error .parseErr) ∧
      ((l.value.bltInt (-(2 ^ 63)) || l.value.bgtInt (2 ^ 63)) = false →
          duration (l.render ++ ("ns").data) =
            some ⟨[Duration.Nanosecond (castI64 l.value)]⟩)) ∧
    (stdtime.parse ("1.9ns") = stdtime.parse ("1ns") ∧
      chrono.parse ("1.9ns") = chrono.parse ("1ns") ∧
      time.parse ("1.9ns") = time.parse ("1ns")) ∧
    (stdtime.parse ("-0.4ns") = stdtime.parse ("0ns") ∧
      chrono.parse ("-0.4ns") = chrono.parse ("0ns") ∧
      time.parse ("-0.4ns") = time.parse ("0ns")) ∧
    stdtime.parse ("18446744073709551616ns") = .error .parseErr ∧
    castI64 ⟨2 ^ 63, 0⟩ = 2 ^ 63 - 1 := by
  refine ⟨?_, ⟨by decide, by decide, by decide⟩, ⟨by decide, by decide, by decide⟩,
    by decide, by decide⟩
  intro l hWF hrep
  have hs : ("ns").data ∈ spellings DurationUnit.Nanosecond := by decide
  have hdr := duration_render l DurationUnit.Nanosecond (("ns").data) hWF hs
  constructor
  · intro hc
    have hfrag : fragOf DurationUnit.Nanosecond l.value = none := by
      simp only [fragOf]
      rw [if_pos hc]
    rw [hfrag] at hdr
    simp at hdr
    refine ⟨?_, ?_, ?_⟩
    · simp only [stdtime.parse]
      rw [hdr]
    · simp only [chrono.parse]
      rw [hdr]
    · simp only [time.parse]
      rw [hdr]
  · intro hc
    have hc1 : l.value.bltInt (-(2 ^ 63)) = false := by
      cases hb : l.value.bltInt (-(2 ^ 63)) with
      | false => rfl
      | true => rw [hb] at hc; simp at hc
    have hc2 : l.value.bgtInt (2 ^ 63) = false := by
      cases hb : l.value.bgtInt (2 ^ 63) with
      | false => rfl
      | true => rw [hb] at hc; simp at hc
    norm_num at hc1 hc2
    have hfrag : fragOf DurationUnit.Nanosecond l.value =
        some (Duration.Nanosecond (castI64 l.value)) := by
      simp only [fragOf]
      rw [if_neg (by simp [hc1, hc2])]
    rw [hfrag] at hdr
    simpa using hdr

/-- Claim C10 witness: the in-range branch applied to the (exactly
representable) literal `1`, whose fragment is `Nanosecond(1)`. -/
theorem C10_witness :
    duration ((⟨none, ("1").data, none⟩ : NumLit).render ++ ("ns").data) =
      some ⟨[Duration.Nanosecond
        (castI64 (⟨none, ("1").data, none⟩ : NumLit).value)]⟩ :=
  (C10_nanosecond_literal.1 ⟨none, ("1").data, none⟩ (by decide) (by decide)).2 (by decide)
